import Mathlib

/-!
# SafeMonk: verification of the core against its specification

Shallow embedding of the SafeMonk core (client crypto pipeline, burn store
SQL functions, download tokens, rate limiter) as executable Lean
definitions, together with theorems settling the specification claims.

Bytes are modelled as `Nat` values (< 256 where produced by the code),
byte strings as `List Nat`, timestamps as `Nat` milliseconds, and database
tables as association lists keyed by primary key.
-/

namespace SafeMonk

/-! ## Codec: URL-safe base64 decoding (`fromB64u` in `src/lib/crypto.ts`)

`fromB64u` maps `-`/`_` back to `+`/`/`, restores padding with
`'==='.slice((base64.length + 3) % 4)` and calls the platform `atob`.
`atob` implements WHATWG "forgiving-base64 decode": strip ASCII
whitespace; if the length is a multiple of 4, drop up to two trailing
`=`; fail if the remaining length is ≡ 1 (mod 4) or any remaining
character is outside the standard base64 alphabet; otherwise decode,
discarding leftover bits of a final partial group. -/

/-- Index of a character in the standard base64 alphabet `A-Za-z0-9+/`,
or `none` when the character is not in the alphabet. -/
def b64Index (c : Char) : Option Nat :=
  let n := c.toNat
  if 65 ≤ n ∧ n ≤ 90 then some (n - 65)
  else if 97 ≤ n ∧ n ≤ 122 then some (n - 97 + 26)
  else if 48 ≤ n ∧ n ≤ 57 then some (n - 48 + 52)
  else if n = 43 then some 62
  else if n = 47 then some 63
  else none

/-- ASCII whitespace as stripped by forgiving-base64 decode
(TAB, LF, FF, CR, SPACE). -/
def isAsciiWhitespace (c : Char) : Bool :=
  c.toNat == 9 || c.toNat == 10 || c.toNat == 12 || c.toNat == 13 || c.toNat == 32

/-- Drop up to two leading `=` characters (used on the reversed input to
drop up to two trailing `=`, as forgiving-base64 decode does). -/
def dropEq2 (l : List Char) : List Char :=
  match l with
  | [] => []
  | [c1] => if c1 = '=' then [] else [c1]
  | c1 :: c2 :: r =>
      if c1 = '=' then (if c2 = '=' then r else c2 :: r) else c1 :: c2 :: r

/-- Remove one or two trailing `=` characters. -/
def stripPadding (l : List Char) : List Char :=
  (dropEq2 l.reverse).reverse

/-- Convert a list of base64 sextets to bytes: each group of four sextets
yields three bytes; a final group of two or three sextets yields one or
two bytes, discarding the leftover low bits. -/
def sextetsToBytes : List Nat → List Nat
  | a :: b :: c :: d :: rest =>
      (a * 4 + b / 16) :: ((b % 16) * 16 + c / 4) :: ((c % 4) * 64 + d)
        :: sextetsToBytes rest
  | [a, b] => [a * 4 + b / 16]
  | [a, b, c] => [a * 4 + b / 16, (b % 16) * 16 + c / 4]
  | _ => []

/-- Decoding step of forgiving-base64 after whitespace and padding
removal: fail when the length is ≡ 1 (mod 4) or any character is outside
the standard alphabet, else decode. -/
def atobCore (data : List Char) : Option (List Nat) :=
  if data.length % 4 == 1 then none
  else if data.any (fun c => (b64Index c).isNone) then none
  else some (sextetsToBytes (data.filterMap b64Index))

/-- Whitespace and padding removal of forgiving-base64: strip ASCII
whitespace, then drop up to two trailing `=` when the length is a
multiple of four. -/
def atobPrep (s : List Char) : List Char :=
  if (s.filter (fun c => !isAsciiWhitespace c)).length % 4 == 0 then
    stripPadding (s.filter (fun c => !isAsciiWhitespace c))
  else s.filter (fun c => !isAsciiWhitespace c)

/-- The platform `atob`: WHATWG forgiving-base64 decode on a character list. -/
def atobChars (s : List Char) : Option (List Nat) :=
  atobCore (atobPrep s)

/-- `fromB64u` from `src/lib/crypto.ts`: map the URL-safe alphabet back to
the standard one, restore padding, and decode with `atob`. -/
def fromB64u (s : String) : Option (List Nat) :=
  let base64 := s.toList.map (fun c => if c = '-' then '+' else if c = '_' then '/' else c)
  let padded := base64 ++ List.replicate (3 - (base64.length + 3) % 4) '='
  atobChars padded

/-- The URL-safe base64 alphabet `A-Za-z0-9-_` named by the spec. -/
def isUrlSafeB64Char (c : Char) : Bool :=
  (65 ≤ c.toNat && c.toNat ≤ 90) || (97 ≤ c.toNat && c.toNat ≤ 122)
    || (48 ≤ c.toNat && c.toNat ≤ 57) || c.toNat == 45 || c.toNat == 95

/-! ## `contentDispositionAttachment` (`src/lib/crypto.ts`)

The source builds the header value as
`attachment; filename="${safeAscii}"; filename*=UTF-8''${encoded}` where
`safeAscii` is the file name with control characters (regex
`[\x00-\x1F\x7F]+`) and double quotes removed, falling back to `file`
when empty, and `encoded` is `encodeURIComponent(fileName)`. -/

/-- A character matched by the sanitizing regex `[\x00-\x1F\x7F]`. -/
def isCtlByte (c : Char) : Bool :=
  c.toNat ≤ 31 || c.toNat == 127

/-- The file name after the two `replace` calls: control characters and
double quotes removed. -/
def sanitizeName (f : List Char) : List Char :=
  (f.filter (fun c => !isCtlByte c)).filter (fun c => c ≠ '"')

/-- The ASCII fallback: the sanitized name, or `file` when it is empty
(JS `|| 'file'` on an empty string). -/
def safeAsciiName (f : List Char) : List Char :=
  if sanitizeName f = [] then "file".toList else sanitizeName f

/-- Characters `encodeURIComponent` leaves unescaped:
`A-Za-z0-9 - _ . ! ~ * ' ( )`. -/
def isUriUnreserved (c : Char) : Bool :=
  (65 ≤ c.toNat && c.toNat ≤ 90) || (97 ≤ c.toNat && c.toNat ≤ 122)
    || (48 ≤ c.toNat && c.toNat ≤ 57) || c.toNat == 45 || c.toNat == 95
    || c.toNat == 46 || c.toNat == 33 || c.toNat == 126 || c.toNat == 42
    || c.toNat == 39 || c.toNat == 40 || c.toNat == 41

/-- UTF-8 encoding of a Unicode code point. -/
def utf8Bytes (n : Nat) : List Nat :=
  if n < 128 then [n]
  else if n < 2048 then [192 + n / 64, 128 + n % 64]
  else if n < 65536 then [224 + n / 4096, 128 + n / 64 % 64, 128 + n % 64]
  else [240 + n / 262144, 128 + n / 4096 % 64, 128 + n / 64 % 64, 128 + n % 64]

/-- Uppercase hexadecimal digit. -/
def hexDigitChar (n : Nat) : Char :=
  if n < 10 then Char.ofNat (48 + n) else Char.ofNat (55 + n)

/-- Percent-encoding of one byte, `%XX`. -/
def pctEncodeByte (b : Nat) : List Char :=
  ['%', hexDigitChar (b / 16), hexDigitChar (b % 16)]

/-- The platform `encodeURIComponent`: unreserved characters are kept,
all others are UTF-8 encoded and percent-escaped. -/
def encodeURIComponent (f : List Char) : List Char :=
  (f.map (fun c =>
    if isUriUnreserved c then [c]
    else ((utf8Bytes c.toNat).map pctEncodeByte).flatten)).flatten

/-- `contentDispositionAttachment` from `src/lib/crypto.ts`. -/
def contentDispositionAttachment (f : List Char) : List Char :=
  "attachment; filename=\"".toList ++ safeAsciiName f
    ++ "\"; filename*=UTF-8".toList ++ [Char.ofNat 39, Char.ofNat 39]
    ++ encodeURIComponent f

/-! ## Symbolic AES-256-GCM and the chunked file pipeline
(`src/lib/crypto.ts`)

AES-GCM is modelled symbolically (ideal authenticated encryption): a
ciphertext-with-tag is an opaque value recording the key, IV, AAD and
plaintext that produced it, and decryption returns the plaintext exactly
when key, IV and AAD all match, else an authentication failure (`none`).
This captures precisely the authenticity contract the code relies on. -/

/-- A symbolic AES-GCM ciphertext-with-tag. -/
structure GCMCtxt where
  key : List Nat
  iv : List Nat
  aad : String
  pt : List Nat
deriving DecidableEq, Repr

/-- Symbolic `crypto.subtle.encrypt` with AES-GCM. -/
def gcmEncrypt (key iv : List Nat) (aad : String) (pt : List Nat) : GCMCtxt :=
  ⟨key, iv, aad, pt⟩

/-- Symbolic `crypto.subtle.decrypt` with AES-GCM: succeeds exactly when
key, IV and AAD match the ones used at encryption. -/
def gcmDecrypt (key iv : List Nat) (aad : String) (ct : GCMCtxt) : Option (List Nat) :=
  if ct.key = key ∧ ct.iv = iv ∧ ct.aad = aad then some ct.pt else none

/-- `Math.ceil(size / chunkSize)` on naturals. -/
def totalChunksOf (size chunkSize : Nat) : Nat :=
  (size + chunkSize - 1) / chunkSize

/-- `new DataView(iv.buffer).setUint32(off, v, false)`: overwrite the four
bytes at positions `off..off+4` with `v` as a big-endian 32-bit integer
(JS `ToUint32` reduces `v` modulo `2^32`, which the byte formulas do
implicitly). -/
def setUint32BE (l : List Nat) (off v : Nat) : List Nat :=
  l.take off ++ [v / 16777216 % 256, v / 65536 % 256, v / 256 % 256, v % 256]
    ++ l.drop (off + 4)

/-- Per-chunk IV derivation in `encryptAndUploadInChunks.uploadChunk`:
`const iv = new Uint8Array(ivBase); new DataView(iv.buffer).setUint32(8, chunkIndex, false)`. -/
def chunkIVenc (ivBase : List Nat) (i : Nat) : List Nat :=
  setUint32BE ivBase 8 i

/-- Per-chunk AAD in `encryptAndUploadInChunks.uploadChunk`:
`encoder.encode(` the template string `chunk:` index `/` total `)`. -/
def chunkAADenc (i total : Nat) : String :=
  "chunk:" ++ toString i ++ "/" ++ toString total

/-- Per-chunk IV derivation in `decryptChunkedFile.downloadAndDecryptChunk`:
`const iv = new Uint8Array(ivBase); new DataView(iv.buffer).setUint32(8, chunkIndex, false)`. -/
def chunkIVdec (ivBase : List Nat) (i : Nat) : List Nat :=
  setUint32BE ivBase 8 i

/-- Per-chunk AAD in `decryptChunkedFile.downloadAndDecryptChunk`. -/
def chunkAADdec (i total : Nat) : String :=
  "chunk:" ++ toString i ++ "/" ++ toString total

/-- The `i`-th plaintext chunk: `file.slice(i*chunkSize, min(size, (i+1)*chunkSize))`. -/
def plainChunk (m : List Nat) (chunkSize i : Nat) : List Nat :=
  (m.drop (i * chunkSize)).take chunkSize

/-- The encryption side of `encryptAndUploadInChunks`: the sequence of
per-chunk ciphertexts (in index order) produced for message `m` under
`key`, base IV `ivBase` and chunk size `chunkSize`. Chunk `i` is encrypted
with the chunk IV and the order-binding AAD derived in `uploadChunk`. -/
def encryptChunks (key ivBase : List Nat) (chunkSize : Nat) (m : List Nat) : List GCMCtxt :=
  (List.range (totalChunksOf m.length chunkSize)).map fun i =>
    gcmEncrypt key (chunkIVenc ivBase i)
      (chunkAADenc i (totalChunksOf m.length chunkSize))
      (plainChunk m chunkSize i)

/-- `decryptChunkedFile`: fetch every chunk `i < totalChunks` from the
store (`fetch`), decrypt it with the re-derived IV and AAD, and
concatenate the plaintexts in index order; if any fetch or any
authentication fails, the whole decryption fails. -/
def decryptChunkedFile (key ivBase : List Nat) (totalChunks : Nat)
    (fetch : Nat → Option GCMCtxt) : Option (List Nat) :=
  ((List.range totalChunks).mapM fun i =>
    (fetch i).bind fun ct => gcmDecrypt key (chunkIVdec ivBase i) (chunkAADdec i totalChunks) ct).map
    List.flatten

/-- The chunk store produced by a completed chunked upload of `m`:
position `i` holds the `i`-th per-chunk ciphertext. -/
def uploadedStore (key ivBase : List Nat) (chunkSize : Nat) (m : List Nat) :
    Nat → Option GCMCtxt :=
  fun i => (encryptChunks key ivBase chunkSize m)[i]?

/-- The chunk store with the stored objects at positions `i` and `j`
exchanged (the spec's chunk-swap attack). -/
def swappedStore (fetch : Nat → Option GCMCtxt) (i j : Nat) : Nat → Option GCMCtxt :=
  fun t => if t = i then fetch j else if t = j then fetch i else fetch t

/-- Modelled from the spec (§4.2): "derive the chunk IV by copying
`iv_base` and overwriting bytes 8..12 with `i` as a 32-bit big-endian
integer". -/
def specChunkIV (ivBase : List Nat) (i : Nat) : List Nat :=
  ivBase.take 8 ++ [i / 16777216 % 256, i / 65536 % 256, i / 256 % 256, i % 256]
    ++ ivBase.drop 12

/-- Modelled from the spec (§4.2): "compute AAD = the ASCII string
`chunk:<i>/<total>`". -/
def specChunkAAD (i total : Nat) : String :=
  "chunk:" ++ toString i ++ "/" ++ toString total

/-! ## Note store (`database/schema.sql`,
`database/migration_add_passphrase_validation.sql`)

The `notes` table is an association list keyed by the note id (UUIDs are
opaque, so ids are `Nat`); `NOW()` is an explicit `now : Nat` parameter.
`views_left` is an SQL `INT`, modelled as `Int`. Each SQL function
becomes a state-passing Lean function returning its result together with
the updated table. -/

/-- A row of the `notes` table. -/
structure Note where
  ciphertext : String
  iv_b64u : String
  created_at : Nat
  expires_at : Nat
  views_left : Int
  pass_salt_b64u : Option String
  kdf_iters : Option Nat
  passphrase_hash : Option String
  validation_salt_b64u : Option String
deriving DecidableEq, Repr

/-- `SELECT` of a single row by a unique key from an association-list
table. -/
def tblLookup {κ ν : Type} [DecidableEq κ] (s : List (κ × ν)) (k : κ) : Option ν :=
  match s with
  | [] => none
  | (k0, v) :: t => if k0 = k then some v else tblLookup t k

/-- The `notes` table, keyed by `id`. -/
def NoteStore : Type := List (Nat × Note)

instance : DecidableEq NoteStore := inferInstanceAs (DecidableEq (List (Nat × Note)))

/-- `UPDATE` of every row with the given key in an association-list
table. -/
def tblMapAt {κ ν : Type} [DecidableEq κ] (s : List (κ × ν)) (k : κ) (f : ν → ν) :
    List (κ × ν) :=
  match s with
  | [] => []
  | (k0, v) :: t =>
      if k0 = k then (k0, f v) :: tblMapAt t k f else (k0, v) :: tblMapAt t k f

/-- Row lookup by primary key. -/
def NoteStore.lookupNote (s : NoteStore) (id : Nat) : Option Note :=
  tblLookup s id

/-- `UPDATE notes SET ... WHERE id = target_id`. -/
def NoteStore.setNote (s : NoteStore) (id : Nat) (n : Note) : NoteStore :=
  tblMapAt s id fun _ => n

/-- `burn_and_fetch_note(target_id)` from `database/schema.sql`: under a
row lock, select the note with `id = target_id AND NOW() <= expires_at
AND views_left > 0`; if found, decrement `views_left` by one and return
`(ciphertext, iv_b64u)`; otherwise return no row and change nothing. -/
def burnAndFetchNote (now id : Nat) (s : NoteStore) :
    Option (String × String) × NoteStore :=
  match s.lookupNote id with
  | some n =>
      if now ≤ n.expires_at ∧ 0 < n.views_left then
        (some (n.ciphertext, n.iv_b64u),
          s.setNote id { n with views_left := n.views_left - 1 })
      else (none, s)
  | none => (none, s)

/-- `validate_note_passphrase(target_id, provided_hash)` from
`database/migration_add_passphrase_validation.sql`: select
`passphrase_hash` where the note is live and passphrase-protected;
return `false` when no row matched, else whether the stored hash equals
the provided one. The function only reads. -/
def validateNotePassphrase (now id : Nat) (provided : String) (s : NoteStore) :
    Bool × NoteStore :=
  match s.lookupNote id with
  | some n =>
      if now ≤ n.expires_at ∧ 0 < n.views_left then
        match n.passphrase_hash with
        | some h => (decide (h = provided), s)
        | none => (false, s)
      else (false, s)
  | none => (false, s)

/-! ## Download tokens (`database/migration_add_download_tokens.sql`) -/

/-- A row of the `download_tokens` table (keyed by the unique `token`
string). -/
structure DLToken where
  file_id : Nat
  created_at : Nat
  expires_at : Nat
  used : Bool
  is_multi_use : Bool
deriving DecidableEq, Repr

/-- A row of the `files` table (the columns the token functions read). -/
structure FileRec where
  file_name : String
  size_bytes : Nat
  chunk_bytes : Nat
  total_chunks : Nat
  iv_base_b64u : String
  storage_path : String
  expires_at : Nat
deriving DecidableEq, Repr

/-- The `download_tokens` and `files` tables. -/
structure TokenStore where
  tokens : List (String × DLToken)
  files : List (Nat × FileRec)
deriving DecidableEq, Repr

/-- `UPDATE download_tokens SET used = TRUE WHERE token = tok`. -/
def markTokenUsed (tok : String) (st : TokenStore) : TokenStore :=
  { st with tokens := tblMapAt st.tokens tok fun dt => { dt with used := true } }

/-- `validate_download_token(target_token, target_file_id)`: `EXISTS` of
the token joined with its file where the token is unused and neither the
token nor the file has expired. Read-only. -/
def validateDownloadToken (now : Nat) (tok : String) (fileId : Nat)
    (st : TokenStore) : Bool :=
  match tblLookup st.tokens tok with
  | some dt =>
      match tblLookup st.files dt.file_id with
      | some f =>
          decide (dt.file_id = fileId) && !dt.used
            && decide (now ≤ dt.expires_at) && decide (now ≤ f.expires_at)
      | none => false
  | none => false

/-- Result of `consume_download_token`: either the returned rows (the
file id and record, or no row), or the `RAISE EXCEPTION` taken for
multi-use tokens (which aborts the transaction, rolling back any
effect). -/
inductive ConsumeResult where
  | ok : Option (Nat × FileRec) → ConsumeResult
  | error : ConsumeResult
deriving DecidableEq, Repr

/-- `consume_download_token(target_token)` from
`database/migration_add_download_tokens.sql`: lock the token row with
`used = FALSE AND NOW() <= expires_at`; if absent return no row; if the
token is multi-use raise an exception; otherwise mark it used and return
the joined file row subject to `NOW() <= f.expires_at`. -/
def consumeDownloadToken (now : Nat) (tok : String) (st : TokenStore) :
    ConsumeResult × TokenStore :=
  match tblLookup st.tokens tok with
  | some dt =>
      if dt.used = false ∧ now ≤ dt.expires_at then
        if dt.is_multi_use then (ConsumeResult.error, st)
        else
          let st1 := markTokenUsed tok st
          match tblLookup st.files dt.file_id with
          | some f =>
              if now ≤ f.expires_at then (ConsumeResult.ok (some (dt.file_id, f)), st1)
              else (ConsumeResult.ok none, st1)
          | none => (ConsumeResult.ok none, st1)
      else (ConsumeResult.ok none, st)
  | none => (ConsumeResult.ok none, st)

/-! ## Rate limiter (`src/lib/rateLimit.ts`)

The `rate_limits` table is a list of `(key, timestamp)` rows. The
Supabase select returns the rows for the key with `timestamp >=
windowStart`, ordered by timestamp descending (modelled with an
insertion sort). Backend failures are modelled by three flags: the
select erroring, the insert erroring, and anything inside the `try`
throwing. In JS `windowStart = now - windowMs` may be negative while
timestamps are nonnegative; natural-number truncation to `0` yields the
same comparison results. -/

/-- A row of the `rate_limits` table. -/
structure RLEntry where
  key : String
  timestamp : Nat
deriving DecidableEq, Repr

/-- The result object of `rateLimit`. -/
structure RLResult where
  success : Bool
  remaining : Int
  resetTime : Nat
deriving DecidableEq, Repr

/-- Which backend operations fail during one `rateLimit` call. -/
structure RLBackend where
  throws : Bool
  selectErr : Bool
  insertErr : Bool
deriving DecidableEq, Repr

/-- Descending-timestamp order used by `.order('timestamp', { ascending: false })`. -/
def tsGE (a b : RLEntry) : Prop := b.timestamp ≤ a.timestamp

instance : DecidableRel tsGE := fun a b => Nat.decLe b.timestamp a.timestamp

instance : IsTotal RLEntry tsGE := ⟨fun a b => Nat.le_total b.timestamp a.timestamp⟩

instance : IsTrans RLEntry tsGE := ⟨fun _ _ _ h1 h2 => Nat.le_trans h2 h1⟩

/-- The select's ordering of the matching rows. -/
def sortDescByTimestamp (l : List RLEntry) : List RLEntry :=
  List.insertionSort tsGE l

/-- The rate-limit key for a client IP: `rate_limit:<ip>`. -/
def rlKey (ip : String) : String := "rate_limit:" ++ ip

/-- The rows the select returns (before ordering): key matches and
`timestamp >= windowStart`. -/
def inWindowEntries (db : List RLEntry) (key : String) (windowStart : Nat) :
    List RLEntry :=
  db.filter fun e => decide (e.key = key) && decide (windowStart ≤ e.timestamp)

/-- The opportunistic cleanup delete: drop the key's entries older than
the window. -/
def rlCleanup (db : List RLEntry) (key : String) (windowStart : Nat) :
    List RLEntry :=
  db.filter fun e => !(decide (e.key = key) && decide (e.timestamp < windowStart))

/-- `rateLimit(request, config)` from `src/lib/rateLimit.ts`, with the
client IP already extracted. Returns the `RateLimitResult` and the
updated `rate_limits` table. -/
def rateLimit (be : RLBackend) (maxRequests windowMs : Nat) (ip : String)
    (now : Nat) (db : List RLEntry) : RLResult × List RLEntry :=
  if be.throws then
    ({ success := true, remaining := (maxRequests : Int) - 1,
       resetTime := now + windowMs }, db)
  else
    let key := rlKey ip
    let windowStart := now - windowMs
    if be.selectErr then
      ({ success := true, remaining := (maxRequests : Int) - 1,
         resetTime := now + windowMs }, db)
    else
      let current := sortDescByTimestamp (inWindowEntries db key windowStart)
      let currentCount := current.length
      let db1 :=
        if 0 < currentCount then rlCleanup db key windowStart else db
      if maxRequests ≤ currentCount then
        let resetTime :=
          match current.getLast? with
          | some oldest => oldest.timestamp + windowMs
          | none => now + windowMs
        ({ success := false, remaining := 0, resetTime := resetTime }, db1)
      else if be.insertErr then
        ({ success := true, remaining := (maxRequests : Int) - 1,
           resetTime := now + windowMs }, db1)
      else
        ({ success := true, remaining := (maxRequests : Int) - currentCount - 1,
           resetTime := now + windowMs }, db1 ++ [⟨key, now⟩])

/-! ## Theorems -/

/-- Updating the rows with a key and then looking that key up yields the
updated row. -/
theorem tblLookup_tblMapAt_self {κ ν : Type} [DecidableEq κ]
    (s : List (κ × ν)) (k : κ) (f : ν → ν) (v0 : ν)
    (h : tblLookup s k = some v0) :
    tblLookup (tblMapAt s k f) k = some (f v0) := by
  induction s with
  | nil => simp [tblLookup] at h
  | cons p t ih =>
      obtain ⟨k0, v⟩ := p
      by_cases hk : k0 = k
      · subst hk
        rw [tblLookup, if_pos rfl] at h
        injection h with h
        subst h
        simp [tblMapAt, tblLookup]
      · rw [tblLookup, if_neg hk] at h
        have := ih h
        simp [tblMapAt, tblLookup, hk, this]

/-- Updating the rows with one key leaves lookups of other keys
unchanged. -/
theorem tblLookup_tblMapAt_other {κ ν : Type} [DecidableEq κ]
    (s : List (κ × ν)) (k k2 : κ) (f : ν → ν) (hne : k2 ≠ k) :
    tblLookup (tblMapAt s k f) k2 = tblLookup s k2 := by
  induction s with
  | nil => simp [tblLookup, tblMapAt]
  | cons p t ih =>
      obtain ⟨k0, v⟩ := p
      by_cases hk : k0 = k
      · subst hk
        have hk02 : k0 ≠ k2 := fun h => hne h.symm
        simp [tblMapAt, tblLookup, hk02, ih]
      · by_cases hk02 : k0 = k2
        · subst hk02
          simp [tblMapAt, tblLookup, hk]
        · simp [tblMapAt, tblLookup, hk, hk02, ih]

/-- C1: for every note id, `burn_and_fetch_note(id)` returns the note's
`(ciphertext, iv)` and decrements `views_left` by exactly one when
`now ≤ expires_at` and `views_left > 0`; in every other case (note
missing, expired, or no views left) it returns no row (`Gone`) and
leaves the stored state unchanged. -/
theorem burn_and_fetch_note_spec (now id : Nat) (s : NoteStore) :
    (∀ n, s.lookupNote id = some n → now ≤ n.expires_at → 0 < n.views_left →
      (burnAndFetchNote now id s).1 = some (n.ciphertext, n.iv_b64u) ∧
      (burnAndFetchNote now id s).2.lookupNote id =
        some { n with views_left := n.views_left - 1 }) ∧
    ((s.lookupNote id = none ∨
        ∃ n, s.lookupNote id = some n ∧ (n.expires_at < now ∨ n.views_left ≤ 0)) →
      burnAndFetchNote now id s = (none, s)) := by
  constructor
  · intro n hn h1 h2
    refine ⟨by simp [burnAndFetchNote, hn, h1, h2], ?_⟩
    have : burnAndFetchNote now id s =
        (some (n.ciphertext, n.iv_b64u),
          s.setNote id { n with views_left := n.views_left - 1 }) := by
      simp [burnAndFetchNote, hn, h1, h2]
    rw [this]
    exact tblLookup_tblMapAt_self s id _ n hn
  · rintro (hn | ⟨n, hn, hcond⟩)
    · simp [burnAndFetchNote, hn]
    · have hneg : ¬(now ≤ n.expires_at ∧ 0 < n.views_left) := by
        rintro ⟨ha, hb⟩
        rcases hcond with h | h
        · omega
        · omega
      simp [burnAndFetchNote, hn, hneg]

/-- Closed witness for `burn_and_fetch_note_spec`. -/
theorem burn_and_fetch_note_spec_witness :
    (burnAndFetchNote 5 1
      [(1, ⟨"ct", "iv", 0, 100, 2, none, none, none, none⟩)]).1 = some ("ct", "iv") ∧
    (burnAndFetchNote 5 1
      [(1, ⟨"ct", "iv", 0, 100, 2, none, none, none, none⟩)]).2.lookupNote 1 =
      some ⟨"ct", "iv", 0, 100, 1, none, none, none, none⟩ :=
  (burn_and_fetch_note_spec 5 1 _).1 ⟨"ct", "iv", 0, 100, 2, none, none, none, none⟩
    (by decide) (by decide) (by decide)

/-- C2: `burn_and_fetch_note` takes a row lock (`SELECT ... FOR UPDATE`),
so two concurrent calls on the same note are serialized; since both calls
are the same operation, every serialization is this sequential
composition. On a 1-view note the first serialized call returns the
ciphertext and the second returns no row (`Gone`): the two callers never
both succeed. -/
theorem burn_one_view_exactly_one_success (now id : Nat) (s : NoteStore)
    (n : Note) (hn : s.lookupNote id = some n) (hexp : now ≤ n.expires_at)
    (hv : n.views_left = 1) :
    (burnAndFetchNote now id s).1 = some (n.ciphertext, n.iv_b64u) ∧
    (burnAndFetchNote now id (burnAndFetchNote now id s).2).1 = none := by
  have h1 : 0 < n.views_left := by omega
  have hfst := ((burn_and_fetch_note_spec now id s).1 n hn hexp h1).1
  have hsnd := ((burn_and_fetch_note_spec now id s).1 n hn hexp h1).2
  refine ⟨hfst, ?_⟩
  have hgone := (burn_and_fetch_note_spec now id (burnAndFetchNote now id s).2).2
    (Or.inr ⟨{ n with views_left := n.views_left - 1 }, hsnd, Or.inr (by simp [hv])⟩)
  simp [hgone]

/-- Closed witness for `burn_one_view_exactly_one_success`. -/
theorem burn_one_view_exactly_one_success_witness :
    (burnAndFetchNote 5 1
      [(1, ⟨"c", "i", 0, 100, 1, none, none, none, none⟩)]).1 = some ("c", "i") ∧
    (burnAndFetchNote 5 1
      (burnAndFetchNote 5 1
        [(1, ⟨"c", "i", 0, 100, 1, none, none, none, none⟩)]).2).1 = none :=
  burn_one_view_exactly_one_success 5 1 _ ⟨"c", "i", 0, 100, 1, none, none, none, none⟩
    (by decide) (by decide) (by decide)

/-- C6: `validate_note_passphrase(id, provided_hash)` returns `true` iff
the note exists, `now ≤ expires_at`, `views_left > 0`, the note is
passphrase-protected, and the provided hash equals the stored
`passphrase_hash`; the result is a bare boolean and the stored state is
unchanged. -/
theorem validate_note_passphrase_spec (now id : Nat) (prov : String)
    (s : NoteStore) :
    ((validateNotePassphrase now id prov s).1 = true ↔
      ∃ n, s.lookupNote id = some n ∧ now ≤ n.expires_at ∧ 0 < n.views_left ∧
        n.passphrase_hash = some prov) ∧
    (validateNotePassphrase now id prov s).2 = s := by
  constructor
  · cases hn : s.lookupNote id with
    | none => simp [validateNotePassphrase, hn]
    | some n =>
        by_cases hc : now ≤ n.expires_at ∧ 0 < n.views_left
        · cases hh : n.passphrase_hash with
          | none =>
              have he : validateNotePassphrase now id prov s = (false, s) := by
                simp [validateNotePassphrase, hn, hh, if_pos hc]
              rw [he]
              simp only [Bool.false_eq_true, false_iff]
              rintro ⟨n2, hn2, _, _, hh2⟩
              injection hn2 with hn2
              subst hn2
              rw [hh] at hh2
              exact Option.noConfusion hh2
          | some h =>
              have he : validateNotePassphrase now id prov s =
                  (decide (h = prov), s) := by
                simp [validateNotePassphrase, hn, hh, if_pos hc]
              rw [he]
              simp only [decide_eq_true_eq]
              constructor
              · rintro rfl
                exact ⟨n, rfl, hc.1, hc.2, hh⟩
              · rintro ⟨n2, hn2, _, _, hh2⟩
                injection hn2 with hn2
                subst hn2
                have hcomb := hh.symm.trans hh2
                injection hcomb
        · have he : validateNotePassphrase now id prov s = (false, s) := by
            simp [validateNotePassphrase, hn, if_neg hc]
          rw [he]
          simp only [Bool.false_eq_true, false_iff]
          rintro ⟨n2, hn2, h1, h2, _⟩
          injection hn2 with hn2
          subst hn2
          exact absurd ⟨h1, h2⟩ hc
  · cases hn : s.lookupNote id with
    | none => simp [validateNotePassphrase, hn]
    | some n =>
        by_cases hc : now ≤ n.expires_at ∧ 0 < n.views_left
        · cases hh : n.passphrase_hash <;>
            simp [validateNotePassphrase, hn, hh, if_pos hc]
        · simp [validateNotePassphrase, hn, if_neg hc]

/-- C10: `contentDispositionAttachment` returns a string of the form
`attachment; filename="S"; filename*=UTF-8''E` in which the quoted
fallback `S` contains no control characters (0x00-0x1F, 0x7F) and no
double quote, and `S` is the literal `file` when the sanitized name is
empty — so the quoted portion of the header value cannot carry injected
header data. -/
theorem content_disposition_attachment_safe (f : List Char) :
    ∃ S E, contentDispositionAttachment f =
        "attachment; filename=\"".toList ++ S ++ "\"; filename*=UTF-8".toList
          ++ [Char.ofNat 39, Char.ofNat 39] ++ E ∧
      (∀ c ∈ S, ¬(c.toNat ≤ 31 ∨ c.toNat = 127) ∧ c ≠ '"') ∧
      (sanitizeName f = [] → S = "file".toList) := by
  refine ⟨safeAsciiName f, encodeURIComponent f, rfl, ?_, ?_⟩
  · intro c hc
    unfold safeAsciiName at hc
    by_cases hempty : sanitizeName f = []
    · rw [if_pos hempty] at hc
      have : c = 'f' ∨ c = 'i' ∨ c = 'l' ∨ c = 'e' := by simpa using hc
      rcases this with rfl | rfl | rfl | rfl <;> exact ⟨by decide, by decide⟩
    · rw [if_neg hempty] at hc
      unfold sanitizeName at hc
      have h2 := List.mem_filter.mp hc
      have h1 := List.mem_filter.mp h2.1
      constructor
      · have hctl : isCtlByte c = false := by
          have := h1.2
          simpa using this
        have : ¬(c.toNat ≤ 31) ∧ c.toNat ≠ 127 := by
          simpa [isCtlByte] using hctl
        rintro (h | h)
        · exact this.1 h
        · exact this.2 h
      · have := h2.2
        simpa using this
  · intro hempty
    simp [safeAsciiName, hempty]

/-- Closed witness for `content_disposition_attachment_safe`, applied to
a name containing a quote, a control character and a non-ASCII
character. -/
theorem content_disposition_attachment_safe_witness :
    ∃ S E, contentDispositionAttachment ("a\"" ++ String.mk [Char.ofNat 10] ++ "é.txt").toList =
        "attachment; filename=\"".toList ++ S ++ "\"; filename*=UTF-8".toList
          ++ [Char.ofNat 39, Char.ofNat 39] ++ E ∧
      (∀ c ∈ S, ¬(c.toNat ≤ 31 ∨ c.toNat = 127) ∧ c ≠ '"') ∧
      (sanitizeName ("a\"" ++ String.mk [Char.ofNat 10] ++ "é.txt").toList = [] →
        S = "file".toList) :=
  content_disposition_attachment_safe _

/-- Characters the decoding pipeline of `fromB64u` tolerates: the
URL-safe alphabet plus `+`, `/`, `=` and ASCII whitespace (all accepted
by the platform `atob`). -/
def isAtobAccepted (c : Char) : Bool :=
  isUrlSafeB64Char c || c.toNat == 43 || c.toNat == 47 || c.toNat == 61
    || isAsciiWhitespace c

/-- C8 counterexample: `+` is outside the URL-safe base64 alphabet, yet
`fromB64u` decodes `"++++"` successfully instead of rejecting it (the
platform `atob` accepts the standard alphabet, padding and whitespace). -/
theorem from_b64u_accepts_plus :
    isUrlSafeB64Char '+' = false ∧ '+' ∈ "++++".toList ∧
    fromB64u "++++" = some [251, 239, 190] := by decide

/-- Characters of a list survive `dropEq2` unless they are `=`. -/
theorem mem_dropEq2 (l : List Char) (c : Char) (hc : c ∈ l) (hne : c ≠ '=') :
    c ∈ dropEq2 l := by
  rcases l with _ | ⟨c1, _ | ⟨c2, r⟩⟩
  · exact absurd hc (by simp)
  · rcases List.mem_singleton.mp hc with rfl
    show c ∈ if c = '=' then ([] : List Char) else [c]
    rw [if_neg hne]
    exact List.mem_singleton.mpr rfl
  · show c ∈ if c1 = '=' then (if c2 = '=' then r else c2 :: r) else c1 :: c2 :: r
    by_cases h1 : c1 = '='
    · rw [if_pos h1]
      subst h1
      rcases List.mem_cons.mp hc with rfl | hc2
      · exact absurd rfl hne
      · by_cases h2 : c2 = '='
        · rw [if_pos h2]
          subst h2
          rcases List.mem_cons.mp hc2 with rfl | hc3
          · exact absurd rfl hne
          · exact hc3
        · rw [if_neg h2]
          exact hc2
    · rw [if_neg h1]
      exact hc

/-- Characters survive `stripPadding` unless they are `=`. -/
theorem mem_stripPadding (l : List Char) (c : Char) (hc : c ∈ l)
    (hne : c ≠ '=') : c ∈ stripPadding l := by
  unfold stripPadding
  exact List.mem_reverse.mpr (mem_dropEq2 l.reverse c (List.mem_reverse.mpr hc) hne)

/-- `atobCore` fails whenever some character is outside the standard
base64 alphabet. -/
theorem atobCore_rejects (data : List Char) (c : Char) (hc : c ∈ data)
    (hidx : b64Index c = none) : atobCore data = none := by
  unfold atobCore
  by_cases hlen : data.length % 4 == 1
  · rw [if_pos hlen]
  · rw [if_neg hlen]
    have hany : data.any (fun c => (b64Index c).isNone) = true :=
      List.any_eq_true.mpr ⟨c, hc, by simp [hidx]⟩
    rw [if_pos hany]

/-- C8 amended: `fromB64u` rejects every input containing a character
outside the URL-safe base64 alphabet **extended by** `+`, `/`, `=` and
ASCII whitespace (the relaxations of the platform `atob`). -/
theorem from_b64u_rejects_non_base64 (s : String) (c : Char)
    (hc : c ∈ s.toList) (hbad : isAtobAccepted c = false) :
    fromB64u s = none := by
  have h := hbad
  simp only [isAtobAccepted, isUrlSafeB64Char, isAsciiWhitespace,
    Bool.or_eq_false_iff, Bool.and_eq_false_iff, beq_eq_false_iff_ne,
    decide_eq_false_iff_not, not_le, ne_eq] at h
  have hb1 : ¬(65 ≤ c.toNat ∧ c.toNat ≤ 90) := by omega
  have hb2 : ¬(97 ≤ c.toNat ∧ c.toNat ≤ 122) := by omega
  have hb3 : ¬(48 ≤ c.toNat ∧ c.toNat ≤ 57) := by omega
  have hb4 : c.toNat ≠ 45 := by omega
  have hb5 : c.toNat ≠ 95 := by omega
  have hb6 : c.toNat ≠ 43 := by omega
  have hb7 : c.toNat ≠ 47 := by omega
  have hb8 : c.toNat ≠ 61 := by omega
  have hb9 : c.toNat ≠ 9 := by omega
  have hb10 : c.toNat ≠ 10 := by omega
  have hb11 : c.toNat ≠ 12 := by omega
  have hb12 : c.toNat ≠ 13 := by omega
  have hb13 : c.toNat ≠ 32 := by omega
  have hdash : c ≠ '-' := fun hcc => hb4 (by rw [hcc]; rfl)
  have hunder : c ≠ '_' := fun hcc => hb5 (by rw [hcc]; rfl)
  have heq : c ≠ '=' := fun hcc => hb8 (by rw [hcc]; rfl)
  have hws : isAsciiWhitespace c = false := by
    simp [isAsciiWhitespace, hb9, hb10, hb11, hb12, hb13]
  have hidx : b64Index c = none := by
    simp [b64Index, hb1, hb2, hb3, hb6, hb7]
  unfold fromB64u
  have hmap : c ∈ s.toList.map
      (fun x => if x = '-' then '+' else if x = '_' then '/' else x) := by
    have : (if c = '-' then '+' else if c = '_' then '/' else c) = c := by
      rw [if_neg hdash, if_neg hunder]
    exact this ▸ List.mem_map_of_mem _ hc
  have hmem : c ∈ s.toList.map
      (fun x => if x = '-' then '+' else if x = '_' then '/' else x)
      ++ List.replicate
          (3 - ((s.toList.map
            (fun x => if x = '-' then '+' else if x = '_' then '/' else x)).length + 3) % 4)
          '=' :=
    List.mem_append_left _ hmap
  unfold atobChars
  apply atobCore_rejects _ c _ hidx
  unfold atobPrep
  have hm0 : c ∈ (s.toList.map
      (fun x => if x = '-' then '+' else if x = '_' then '/' else x)
      ++ List.replicate
          (3 - ((s.toList.map
            (fun x => if x = '-' then '+' else if x = '_' then '/' else x)).length + 3) % 4)
          '=').filter (fun x => !isAsciiWhitespace x) :=
    List.mem_filter.mpr ⟨hmem, by simp [hws]⟩
  split
  · exact mem_stripPadding _ c hm0 heq
  · exact hm0

/-- Closed witness for `from_b64u_rejects_non_base64`: `*` is rejected. -/
theorem from_b64u_rejects_non_base64_witness :
    fromB64u "ab*d" = none :=
  from_b64u_rejects_non_base64 "ab*d" '*' (by decide) (by decide)

/-- C7 counterexample: `consume_download_token` marks the token used
*before* checking the file's expiry. With a token that is still live
(`now = 5 ≤ 10`, unused, single-use) for a file that has already expired
(`file.expires_at = 3 < 5`), the call returns no row — the read fails,
the caller sees 401 — yet `used` has been flipped to `true`. So
`used = true` does not imply that the associated read ever succeeded. -/
theorem consume_token_burns_without_read :
    (consumeDownloadToken 5 "t"
      ⟨[("t", ⟨1, 0, 10, false, false⟩)], [(1, ⟨"f", 4, 4, 1, "iv", "p", 3⟩)]⟩).1 =
      ConsumeResult.ok none ∧
    (tblLookup (consumeDownloadToken 5 "t"
      ⟨[("t", ⟨1, 0, 10, false, false⟩)], [(1, ⟨"f", 4, 4, 1, "iv", "p", 3⟩)]⟩).2.tokens
      "t").map DLToken.used = some true := by decide

/-- C7 amended: (i) `validate_download_token` accepts exactly the tokens
with `now ≤ token.expires_at ∧ now ≤ file.expires_at ∧ used = false`;
(ii) a live single-use token has `used` flipped to `true` on its first
consumption, and that consumption returns the file row iff the file
still exists and has not expired (when the file has expired the token is
still burned although no read succeeds); (iii) in every other case —
token already used, token expired, or multi-use token — consumption
changes no stored state. -/
theorem download_token_spec (now : Nat) (tok : String) (fileId : Nat)
    (st : TokenStore) :
    (validateDownloadToken now tok fileId st = true ↔
      ∃ dt f, tblLookup st.tokens tok = some dt ∧ dt.file_id = fileId ∧
        tblLookup st.files dt.file_id = some f ∧
        dt.used = false ∧ now ≤ dt.expires_at ∧ now ≤ f.expires_at) ∧
    (∀ dt, tblLookup st.tokens tok = some dt → dt.used = false →
      now ≤ dt.expires_at → dt.is_multi_use = false →
      tblLookup (consumeDownloadToken now tok st).2.tokens tok =
        some { dt with used := true } ∧
      (∀ f, (consumeDownloadToken now tok st).1 =
          ConsumeResult.ok (some (dt.file_id, f)) ↔
        tblLookup st.files dt.file_id = some f ∧ now ≤ f.expires_at)) ∧
    (∀ dt, tblLookup st.tokens tok = some dt →
      (dt.used = true ∨ dt.expires_at < now ∨ dt.is_multi_use = true) →
      (consumeDownloadToken now tok st).2 = st) := by
  refine ⟨?_, ?_, ?_⟩
  · cases hdt : tblLookup st.tokens tok with
    | none => simp [validateDownloadToken, hdt]
    | some dt =>
        cases hf : tblLookup st.files dt.file_id with
        | none =>
            simp only [validateDownloadToken, hdt, hf]
            constructor
            · intro h
              exact absurd h (by simp)
            · rintro ⟨dt2, f2, hdt2, _, hf2, _⟩
              injection hdt2 with hdt2
              subst hdt2
              rw [hf] at hf2
              exact Option.noConfusion hf2
        | some f =>
            simp only [validateDownloadToken, hdt, hf, Bool.and_eq_true,
              Bool.not_eq_true', decide_eq_true_eq]
            constructor
            · rintro ⟨⟨⟨hfid, hused⟩, hte⟩, hfe⟩
              exact ⟨dt, f, rfl, hfid, hf, hused, hte, hfe⟩
            · rintro ⟨dt2, f2, hdt2, hfid, hf2, hused, hte, hfe⟩
              injection hdt2 with hdt2
              subst hdt2
              rw [hf] at hf2
              injection hf2 with hf2
              subst hf2
              exact ⟨⟨⟨hfid, hused⟩, hte⟩, hfe⟩
  · intro dt hdt hused hte hmulti
    have hcond : dt.used = false ∧ now ≤ dt.expires_at := ⟨hused, hte⟩
    constructor
    · cases hf : tblLookup st.files dt.file_id with
      | none =>
          have he : (consumeDownloadToken now tok st).2 = markTokenUsed tok st := by
            simp [consumeDownloadToken, hdt, if_pos hcond, hmulti, hf]
          rw [he]
          exact tblLookup_tblMapAt_self st.tokens tok _ dt hdt
      | some f =>
          by_cases hfe : now ≤ f.expires_at
          · have he : (consumeDownloadToken now tok st).2 = markTokenUsed tok st := by
              simp [consumeDownloadToken, hdt, if_pos hcond, hmulti, hf, hfe]
            rw [he]
            exact tblLookup_tblMapAt_self st.tokens tok _ dt hdt
          · have he : (consumeDownloadToken now tok st).2 = markTokenUsed tok st := by
              simp [consumeDownloadToken, hdt, if_pos hcond, hmulti, hf, hfe]
            rw [he]
            exact tblLookup_tblMapAt_self st.tokens tok _ dt hdt
    · intro f
      cases hf : tblLookup st.files dt.file_id with
      | none =>
          have he : (consumeDownloadToken now tok st).1 = ConsumeResult.ok none := by
            simp [consumeDownloadToken, hdt, if_pos hcond, hmulti, hf]
          rw [he]
          constructor
          · intro h
            exact absurd h (by simp)
          · rintro ⟨hf2, _⟩
            exact Option.noConfusion hf2
      | some f0 =>
          by_cases hfe : now ≤ f0.expires_at
          · have he : (consumeDownloadToken now tok st).1 =
                ConsumeResult.ok (some (dt.file_id, f0)) := by
              simp [consumeDownloadToken, hdt, if_pos hcond, hmulti, hf, hfe]
            rw [he]
            constructor
            · intro h
              injection h with h
              injection h with h
              have hf0 : f0 = f := congrArg Prod.snd h
              subst hf0
              exact ⟨rfl, hfe⟩
            · rintro ⟨hf2, hfe2⟩
              injection hf2 with hf2
              subst hf2
              rfl
          · have he : (consumeDownloadToken now tok st).1 = ConsumeResult.ok none := by
              simp [consumeDownloadToken, hdt, if_pos hcond, hmulti, hf, hfe]
            rw [he]
            constructor
            · intro h
              exact absurd h (by simp)
            · rintro ⟨hf2, hfe2⟩
              injection hf2 with hf2
              subst hf2
              exact absurd hfe2 hfe
  · intro dt hdt hdead
    rcases hdead with h | h | h
    · have hneg : ¬(dt.used = false ∧ now ≤ dt.expires_at) := by
        rintro ⟨h1, _⟩
        rw [h] at h1
        exact Bool.noConfusion h1
      simp [consumeDownloadToken, hdt, if_neg hneg]
    · have hneg : ¬(dt.used = false ∧ now ≤ dt.expires_at) := by
        rintro ⟨_, h2⟩
        omega
      simp [consumeDownloadToken, hdt, if_neg hneg]
    · by_cases hcond : dt.used = false ∧ now ≤ dt.expires_at
      · simp [consumeDownloadToken, hdt, if_pos hcond, h]
      · simp [consumeDownloadToken, hdt, if_neg hcond]

/-- Closed witness for `download_token_spec`. -/
theorem download_token_spec_witness :
    validateDownloadToken 5 "t" 1
      ⟨[("t", ⟨1, 0, 10, false, false⟩)], [(1, ⟨"f", 4, 4, 1, "iv", "p", 9⟩)]⟩ = true ∧
    tblLookup (consumeDownloadToken 5 "t"
      ⟨[("t", ⟨1, 0, 10, false, false⟩)], [(1, ⟨"f", 4, 4, 1, "iv", "p", 9⟩)]⟩).2.tokens
      "t" = some ⟨1, 0, 10, true, false⟩ ∧
    (consumeDownloadToken 5 "t"
      ⟨[("t", ⟨1, 0, 10, false, false⟩)], [(1, ⟨"f", 4, 4, 1, "iv", "p", 9⟩)]⟩).1 =
      ConsumeResult.ok (some (1, ⟨"f", 4, 4, 1, "iv", "p", 9⟩)) := by
  have hspec := download_token_spec 5 "t" 1
    ⟨[("t", ⟨1, 0, 10, false, false⟩)], [(1, ⟨"f", 4, 4, 1, "iv", "p", 9⟩)]⟩
  refine ⟨hspec.1.mpr ⟨⟨1, 0, 10, false, false⟩, ⟨"f", 4, 4, 1, "iv", "p", 9⟩,
    by decide, rfl, by decide, rfl, by decide, by decide⟩, ?_, ?_⟩
  · exact (hspec.2.1 ⟨1, 0, 10, false, false⟩ (by decide) rfl (by decide) rfl).1
  · exact ((hspec.2.1 ⟨1, 0, 10, false, false⟩ (by decide) rfl (by decide) rfl).2
      ⟨"f", 4, 4, 1, "iv", "p", 9⟩).mpr ⟨by decide, by decide⟩

/-- Sorting does not change the number of selected rows. -/
theorem length_sortDescByTimestamp (l : List RLEntry) :
    (sortDescByTimestamp l).length = l.length :=
  (List.perm_insertionSort tsGE l).length_eq

/-- The last element of the descending sort is a minimal-timestamp
element of the selected rows. -/
theorem getLast_sortDesc_min (l : List RLEntry) (oldest : RLEntry)
    (h : (sortDescByTimestamp l).getLast? = some oldest) :
    oldest ∈ l ∧ ∀ x ∈ l, oldest.timestamp ≤ x.timestamp := by
  obtain ⟨ys, hys⟩ := List.getLast?_eq_some_iff.mp h
  have hperm : (sortDescByTimestamp l).Perm l := List.perm_insertionSort tsGE l
  have hsorted : List.Sorted tsGE (sortDescByTimestamp l) :=
    List.sorted_insertionSort tsGE l
  rw [hys] at hsorted hperm
  have hpair := List.pairwise_append.mp hsorted
  constructor
  · exact hperm.mem_iff.mp (List.mem_append_right ys (List.mem_singleton.mpr rfl))
  · intro x hx
    have hx2 : x ∈ ys ++ [oldest] := hperm.mem_iff.mpr hx
    rcases List.mem_append.mp hx2 with hx3 | hx3
    · exact hpair.2.2 x hx3 oldest (List.mem_singleton.mpr rfl)
    · rcases List.mem_singleton.mp hx3 with rfl
      exact Nat.le_refl _

/-- C9: with window `W` and maximum `N`, `rateLimit` admits the request
and appends a new entry iff the number of stored entries for key
`rate_limit:<ip>` with `timestamp ≥ now − W` is below `N`; when that
count is at least `N` it rejects with `remaining = 0` and a reset time
equal to the oldest in-window entry's timestamp plus `W`; and on any
backend error that occurs (select failure, insert failure, or a thrown
exception) it admits the request with `remaining = N − 1` (fail-open). -/
theorem rate_limit_spec (be : RLBackend) (N W : Nat) (ip : String)
    (now : Nat) (db : List RLEntry) (hN : 0 < N) :
    (be.throws = false → be.selectErr = false → be.insertErr = false →
      (((rateLimit be N W ip now db).1.success = true ∧
        (rateLimit be N W ip now db).2 =
          (if 0 < (inWindowEntries db (rlKey ip) (now - W)).length
           then rlCleanup db (rlKey ip) (now - W) else db)
            ++ [⟨rlKey ip, now⟩]) ↔
       (inWindowEntries db (rlKey ip) (now - W)).length < N)) ∧
    (be.throws = false → be.selectErr = false →
      N ≤ (inWindowEntries db (rlKey ip) (now - W)).length →
      ∃ oldest, oldest ∈ inWindowEntries db (rlKey ip) (now - W) ∧
        (∀ x ∈ inWindowEntries db (rlKey ip) (now - W),
          oldest.timestamp ≤ x.timestamp) ∧
        (rateLimit be N W ip now db).1 =
          { success := false, remaining := 0,
            resetTime := oldest.timestamp + W }) ∧
    ((be.throws = true ∨ (be.throws = false ∧ be.selectErr = true) ∨
        (be.throws = false ∧ be.selectErr = false ∧ be.insertErr = true ∧
          (inWindowEntries db (rlKey ip) (now - W)).length < N)) →
      (rateLimit be N W ip now db).1.success = true ∧
      (rateLimit be N W ip now db).1.remaining = (N : Int) - 1) := by
  have hlen := length_sortDescByTimestamp (inWindowEntries db (rlKey ip) (now - W))
  refine ⟨?_, ?_, ?_⟩
  · intro ht hs hi
    by_cases hc : N ≤ (inWindowEntries db (rlKey ip) (now - W)).length
    · have hres : (rateLimit be N W ip now db).1.success = false := by
        simp [rateLimit, ht, hs, hlen, hc]
      constructor
      · rintro ⟨h1, _⟩
        rw [hres] at h1
        exact absurd h1 (by simp)
      · intro h
        omega
    · constructor
      · intro _
        omega
      · intro _
        refine ⟨?_, ?_⟩ <;> simp [rateLimit, ht, hs, hi, hlen, hc]
  · intro ht hs hc
    have hc2 : N ≤ (sortDescByTimestamp
        (inWindowEntries db (rlKey ip) (now - W))).length := by omega
    cases hcur : (sortDescByTimestamp
        (inWindowEntries db (rlKey ip) (now - W))).getLast? with
    | none =>
        have := List.getLast?_eq_none_iff.mp hcur
        rw [this] at hlen
        simp at hlen
        omega
    | some oldest =>
        obtain ⟨hmem, hmin⟩ := getLast_sortDesc_min _ oldest hcur
        refine ⟨oldest, hmem, hmin, ?_⟩
        simp [rateLimit, ht, hs, hlen, hc, hcur]
  · rintro (ht | ⟨ht, hs⟩ | ⟨ht, hs, hi, hc⟩)
    · refine ⟨?_, ?_⟩ <;> simp [rateLimit, ht]
    · refine ⟨?_, ?_⟩ <;> simp [rateLimit, ht, hs]
    · have hc2 : ¬(N ≤ (inWindowEntries db (rlKey ip) (now - W)).length) := by
        omega
      refine ⟨?_, ?_⟩ <;> simp [rateLimit, ht, hs, hi, hlen, hc2]

/-- Closed witness for `rate_limit_spec`: two in-window entries at the
limit `N = 2` reject the third request with reset at the oldest entry
plus the window. -/
theorem rate_limit_spec_witness :
    ∃ oldest, oldest ∈ inWindowEntries
        [⟨"rate_limit:ip", 95⟩, ⟨"rate_limit:ip", 92⟩] (rlKey "ip") (100 - 10) ∧
      (∀ x ∈ inWindowEntries
          [⟨"rate_limit:ip", 95⟩, ⟨"rate_limit:ip", 92⟩] (rlKey "ip") (100 - 10),
        oldest.timestamp ≤ x.timestamp) ∧
      (rateLimit ⟨false, false, false⟩ 2 10 "ip" 100
        [⟨"rate_limit:ip", 95⟩, ⟨"rate_limit:ip", 92⟩]).1 =
        { success := false, remaining := 0, resetTime := oldest.timestamp + 10 } :=
  (rate_limit_spec ⟨false, false, false⟩ 2 10 "ip" 100
    [⟨"rate_limit:ip", 95⟩, ⟨"rate_limit:ip", 92⟩] (by decide)).2.1
    rfl rfl (by decide)

/-- `mapM` over `Option` succeeds pointwise. -/
theorem mapM_eq_some_map {α β : Type} (f : α → Option β) (g : α → β) :
    ∀ l : List α, (∀ x ∈ l, f x = some (g x)) → l.mapM f = some (l.map g) := by
  intro l
  rw [← List.mapM'_eq_mapM]
  induction l with
  | nil => intro _; rfl
  | cons a t ih =>
      intro h
      have ha := h a (List.mem_cons_self a t)
      have ht := ih fun x hx => h x (List.mem_cons_of_mem a hx)
      simp [List.mapM', ha, ht]

/-- `mapM` over `Option` fails whenever one element fails. -/
theorem mapM_eq_none {α β : Type} (f : α → Option β) (x : α)
    (hfx : f x = none) : ∀ l : List α, x ∈ l → l.mapM f = none := by
  intro l
  rw [← List.mapM'_eq_mapM]
  induction l with
  | nil => intro h; exact absurd h (by simp)
  | cons a t ih =>
      intro h
      rcases List.mem_cons.mp h with rfl | hmem
      · simp [List.mapM', hfx]
      · cases hfa : f a with
        | none => simp [List.mapM', hfa]
        | some b => simp [List.mapM', hfa, ih hmem]

/-- C3: the chunked pipeline derives the chunk-`i` IV by copying
`iv_base` and overwriting its bytes 8..12 with `i` as a 32-bit
big-endian integer, and uses the ASCII string `chunk:<i>/<total>` as
AAD — identically on the encryption and the decryption side (both match
the spec-modelled derivations), and the `i`-th produced ciphertext
carries exactly these parameters, which the decryption side accepts. -/
theorem chunk_iv_aad_spec (ivBase : List Nat) (i total : Nat) :
    (chunkIVenc ivBase i = specChunkIV ivBase i ∧
     chunkIVdec ivBase i = specChunkIV ivBase i ∧
     chunkAADenc i total = specChunkAAD i total ∧
     chunkAADdec i total = specChunkAAD i total) ∧
    (∀ key chunkSize m, i < totalChunksOf m.length chunkSize →
      ∃ ct, (encryptChunks key ivBase chunkSize m)[i]? = some ct ∧
        ct.iv = specChunkIV ivBase i ∧
        ct.aad = specChunkAAD i (totalChunksOf m.length chunkSize) ∧
        gcmDecrypt key (chunkIVdec ivBase i)
          (chunkAADdec i (totalChunksOf m.length chunkSize)) ct = some ct.pt) := by
  refine ⟨⟨rfl, rfl, rfl, rfl⟩, ?_⟩
  intro key chunkSize m hi
  refine ⟨gcmEncrypt key (chunkIVenc ivBase i)
    (chunkAADenc i (totalChunksOf m.length chunkSize))
    (plainChunk m chunkSize i), ?_, rfl, rfl, ?_⟩
  · unfold encryptChunks
    rw [List.getElem?_map, List.getElem?_range hi]
    rfl
  · simp [gcmDecrypt, gcmEncrypt, chunkIVdec, chunkIVenc, chunkAADdec, chunkAADenc]

/-- Closed witness for `chunk_iv_aad_spec`. -/
theorem chunk_iv_aad_spec_witness :
    (chunkIVenc (List.replicate 12 0) 1 = specChunkIV (List.replicate 12 0) 1 ∧
     chunkIVdec (List.replicate 12 0) 1 = specChunkIV (List.replicate 12 0) 1 ∧
     chunkAADenc 1 2 = specChunkAAD 1 2 ∧
     chunkAADdec 1 2 = specChunkAAD 1 2) ∧
    (∃ ct, (encryptChunks [] (List.replicate 12 0) 1 [7, 9])[1]? = some ct ∧
      ct.iv = specChunkIV (List.replicate 12 0) 1 ∧
      ct.aad = specChunkAAD 1 (totalChunksOf (2 : Nat) 1) ∧
      gcmDecrypt [] (chunkIVdec (List.replicate 12 0) 1)
        (chunkAADdec 1 (totalChunksOf (2 : Nat) 1)) ct = some ct.pt) :=
  ⟨(chunk_iv_aad_spec (List.replicate 12 0) 1 2).1,
   (chunk_iv_aad_spec (List.replicate 12 0) 1 2).2 [] 1 [7, 9] (by decide)⟩

/-- `totalChunksOf 0 S = 0`. -/
theorem totalChunks_zero (chunkSize : Nat) (hS : 0 < chunkSize) :
    totalChunksOf 0 chunkSize = 0 := by
  unfold totalChunksOf
  exact Nat.div_eq_of_lt (by omega)

/-- Ceiling division peels off one chunk at a time. -/
theorem totalChunks_succ (chunkSize : Nat) (hS : 0 < chunkSize) (n : Nat)
    (hn : 0 < n) :
    totalChunksOf n chunkSize = totalChunksOf (n - chunkSize) chunkSize + 1 := by
  have hmain : ∀ k, 0 < k → totalChunksOf k chunkSize = (k - 1) / chunkSize + 1 := by
    intro k hk
    unfold totalChunksOf
    have he : k + chunkSize - 1 = (k - 1) + chunkSize := by omega
    rw [he, Nat.add_div_right _ hS]
  rcases le_or_lt n chunkSize with hle | hlt
  · rw [hmain n hn]
    have h1 : (n - 1) / chunkSize = 0 := Nat.div_eq_of_lt (by omega)
    have h2 : n - chunkSize = 0 := by omega
    rw [h1, h2, totalChunks_zero chunkSize hS]
  · rw [hmain n hn, hmain (n - chunkSize) (by omega)]
    have he : n - 1 = (n - chunkSize - 1) + chunkSize := by omega
    rw [he, Nat.add_div_right _ hS]

/-- Concatenating the chunk slices in index order reassembles the
message. -/
theorem join_chunks (chunkSize : Nat) (hS : 0 < chunkSize) (m : List Nat) :
    ((List.range (totalChunksOf m.length chunkSize)).map
      (plainChunk m chunkSize)).flatten = m := by
  have H : ∀ n (m : List Nat), m.length = n →
      ((List.range (totalChunksOf m.length chunkSize)).map
        (plainChunk m chunkSize)).flatten = m := by
    intro n
    induction n using Nat.strong_induction_on with
    | _ n ih =>
        intro m hm
        rcases Nat.eq_zero_or_pos m.length with h0 | hpos
        · obtain rfl := List.length_eq_zero.mp h0
          simp [totalChunks_zero chunkSize hS]
        · rw [totalChunks_succ chunkSize hS m.length hpos,
            List.range_succ_eq_map, List.map_cons, List.map_map,
            List.flatten_cons]
          have hhead : plainChunk m chunkSize 0 = m.take chunkSize := by
            simp [plainChunk]
          have hlen2 : (m.drop chunkSize).length = m.length - chunkSize :=
            List.length_drop chunkSize m
          have htail : (List.range
              (totalChunksOf (m.length - chunkSize) chunkSize)).map
              (plainChunk m chunkSize ∘ Nat.succ) =
              (List.range (totalChunksOf (m.length - chunkSize) chunkSize)).map
              (plainChunk (m.drop chunkSize) chunkSize) := by
            apply List.map_congr_left
            intro a _
            show plainChunk m chunkSize (Nat.succ a) =
              plainChunk (m.drop chunkSize) chunkSize a
            unfold plainChunk
            rw [List.drop_drop]
            have he : Nat.succ a * chunkSize = chunkSize + a * chunkSize := by
              rw [Nat.succ_mul]; omega
            rw [he]
          have hdec : m.length - chunkSize < n := by omega
          have ihd := ih (m.length - chunkSize) hdec (m.drop chunkSize)
            (by rw [hlen2])
          rw [hlen2] at ihd
          rw [hhead, htail, ihd, List.take_append_drop]
  exact H m.length m rfl

/-- C4: decrypting the per-chunk ciphertexts produced by chunked
encryption (with the re-derived per-chunk IV and AAD) and concatenating
the plaintexts in index order yields exactly the original message. -/
theorem chunked_roundtrip (key ivBase : List Nat) (chunkSize : Nat)
    (m : List Nat) (hS : 0 < chunkSize) :
    decryptChunkedFile key ivBase (totalChunksOf m.length chunkSize)
      (uploadedStore key ivBase chunkSize m) = some m := by
  unfold decryptChunkedFile
  have hstep : ∀ x ∈ List.range (totalChunksOf m.length chunkSize),
      ((uploadedStore key ivBase chunkSize m x).bind fun ct =>
        gcmDecrypt key (chunkIVdec ivBase x)
          (chunkAADdec x (totalChunksOf m.length chunkSize)) ct) =
      some (plainChunk m chunkSize x) := by
    intro x hx
    have hx2 := List.mem_range.mp hx
    unfold uploadedStore encryptChunks
    rw [List.getElem?_map, List.getElem?_range hx2]
    simp [gcmEncrypt, gcmDecrypt, chunkIVdec, chunkIVenc, chunkAADdec,
      chunkAADenc]
  have hm := mapM_eq_some_map _ (plainChunk m chunkSize) _ hstep
  rw [hm, Option.map_some']
  rw [join_chunks chunkSize hS m]

/-- Closed witness for `chunked_roundtrip`. -/
theorem chunked_roundtrip_witness :
    decryptChunkedFile [] (List.replicate 12 0) (totalChunksOf (2 : Nat) 1)
      (uploadedStore [] (List.replicate 12 0) 1 [7, 9]) = some [7, 9] :=
  chunked_roundtrip [] (List.replicate 12 0) 1 [7, 9] (by decide)

/-- Distinct chunk indices below `2^32` produce distinct per-chunk IVs
(for a 12-byte base IV). -/
theorem specChunkIV_ne (B : List Nat) (hB : B.length = 12) (i j : Nat)
    (hi : i < 4294967296) (hj : j < 4294967296) (hne : i ≠ j) :
    specChunkIV B i ≠ specChunkIV B j := by
  intro h
  have hdropB : B.drop 12 = [] := List.drop_eq_nil_of_le (by omega)
  have htake : (B.take 8).length = 8 := by
    rw [List.length_take]
    omega
  have hkey : ∀ v : Nat, (specChunkIV B v).drop 8 =
      [v / 16777216 % 256, v / 65536 % 256, v / 256 % 256, v % 256] := by
    intro v
    unfold specChunkIV
    rw [hdropB, List.append_nil, List.drop_left' htake]
  have h8 := congrArg (List.drop 8) h
  rw [hkey i, hkey j] at h8
  injection h8 with e1 h8
  injection h8 with e2 h8
  injection h8 with e3 h8
  injection h8 with e4 _
  omega

/-- C5: swapping the stored ciphertexts of two distinct chunks makes
chunked decryption fail with an authentication failure (the re-derived
IV — and AAD — of slot `i` does not match the parameters chunk `j` was
encrypted under), instead of returning permuted plaintext. -/
theorem chunk_swap_fails (key ivBase : List Nat) (chunkSize : Nat)
    (m : List Nat) (i j : Nat) (hB : ivBase.length = 12) (hne : i ≠ j)
    (hi : i < totalChunksOf m.length chunkSize)
    (hj : j < totalChunksOf m.length chunkSize)
    (hi32 : i < 4294967296) (hj32 : j < 4294967296) :
    decryptChunkedFile key ivBase (totalChunksOf m.length chunkSize)
      (swappedStore (uploadedStore key ivBase chunkSize m) i j) = none := by
  unfold decryptChunkedFile
  rw [Option.map_eq_none']
  have hfetch : swappedStore (uploadedStore key ivBase chunkSize m) i j i =
      some (gcmEncrypt key (chunkIVenc ivBase j)
        (chunkAADenc j (totalChunksOf m.length chunkSize))
        (plainChunk m chunkSize j)) := by
    unfold swappedStore
    rw [if_pos rfl]
    unfold uploadedStore encryptChunks
    rw [List.getElem?_map, List.getElem?_range hj]
    rfl
  apply mapM_eq_none _ i ?_ _ (List.mem_range.mpr hi)
  rw [hfetch]
  show gcmDecrypt key (chunkIVdec ivBase i)
    (chunkAADdec i (totalChunksOf m.length chunkSize))
    (gcmEncrypt key (chunkIVenc ivBase j)
      (chunkAADenc j (totalChunksOf m.length chunkSize))
      (plainChunk m chunkSize j)) = none
  unfold gcmDecrypt gcmEncrypt
  rw [if_neg]
  rintro ⟨-, hiv, -⟩
  exact specChunkIV_ne ivBase hB j i hj32 hi32 (Ne.symm hne) hiv

/-- Closed witness for `chunk_swap_fails`. -/
theorem chunk_swap_fails_witness :
    decryptChunkedFile [] (List.replicate 12 0) (totalChunksOf (2 : Nat) 1)
      (swappedStore (uploadedStore [] (List.replicate 12 0) 1 [7, 9]) 0 1) =
      none :=
  chunk_swap_fails [] (List.replicate 12 0) 1 [7, 9] 0 1 (by decide)
    (by decide) (by decide) (by decide) (by decide) (by decide)

end SafeMonk
